import Mathlib

/-!
A shallow embedding, in Lean 4, of the core of the attendance-dashboard
program `src/dashhboard.py`: the CSV attendance loader, the bounded
live-event buffer fed by MQTT message callbacks, the connection state
machine, the idempotent MQTT setup routine, and the history filters and
top-5 ranking of the dashboard controller.

Modelling conventions:
* A CSV file is a list of rows, each row a list of field strings; the
  pandas convention that an empty CSV field reads as NaN is modelled by
  `parseField` returning `none` on the empty string.  CSV quoting and
  dtype inference are library internals, out of scope per the spec.
* Python `str.strip()` is modelled by `pyStrip` over character lists
  (Lean's own `String.trim` is avoided because it does not reduce in the
  kernel).
* The `deque(maxlen=50)` of live messages is a Lean list with the newest
  element first; `appendleft` is `pushEvent`.
* The `paho-mqtt` client and the JSON decoder are external collaborators:
  a callback's decode result enters the model as an `Option LiveEvent`,
  and the connection handshake outcome as the `rc` code / a Bool.
-/

/-- Characters Python's `str.strip()` removes (ASCII fragment). -/
def isWS (c : Char) : Bool := c == ' ' || c == '\t' || c == '\n' || c == '\r'

/-- Python `str.strip()` on a character list: drop leading and trailing whitespace. -/
def stripChars (s : List Char) : List Char :=
  ((s.dropWhile isWS).reverse.dropWhile isWS).reverse

/-- Python `str.strip()` on a string. -/
def pyStrip (s : String) : String := ⟨stripChars s.data⟩

/-- One cleaned attendance record: the three columns of `Attendance.csv`
(`df['Name']`, `df['Time']`, `df['Date']` in `load_attendance_csv`). -/
structure AttendanceRecord where
  name : String
  time : String
  date : String
deriving DecidableEq, Repr

/-- The fixed header row `['Name', 'Time', 'Date']` (line 98 of the source). -/
def csvHeader : List String := ["Name", "Time", "Date"]

/-- Reading one CSV field, pandas-style: an empty field becomes NaN
(modelled as `none`); any other content is kept verbatim. -/
def parseField (s : String) : Option String :=
  if s = "" then none else some s

/-- Reading one CSV data row into the three named columns, by position
(`pd.read_csv(csv_file, names=['Name','Time','Date'], ...)`): a missing
trailing field also reads as NaN. -/
def readRow (r : List String) : Option String × Option String × Option String :=
  (parseField (r.getD 0 ""), parseField (r.getD 1 ""), parseField (r.getD 2 ""))

/-- Model of `df.dropna()`: keep exactly the rows in which all three fields are present. -/
def dropnaRows : List (Option String × Option String × Option String) →
    List (String × String × String)
  | [] => []
  | (some a, some b, some c) :: rest => (a, b, c) :: dropnaRows rest
  | _ :: rest => dropnaRows rest

/-- Model of `load_attendance_csv` (source lines 92-114).  The filesystem enters as
`Option`: `none` is an absent `Attendance.csv`.  The result is the file
content after the call (the function creates the file when absent)
together with the returned record sequence.  `rows.drop 1` is
`skiprows=1`; the final map is the three `str.strip()` column cleanups. -/
def load_attendance_csv (fs : Option (List (List String))) :
    List (List String) × List AttendanceRecord :=
  match fs with
  | none => ([csvHeader], [])
  | some rows =>
      let data := (rows.drop 1).map readRow
      let clean := dropnaRows data
      (rows, clean.map (fun t => ⟨pyStrip t.1, pyStrip t.2.1, pyStrip t.2.2⟩))

/-- Model of `filtered_df.to_csv(index=False)` (source line 235): header row followed
by one row of the three fields per record. -/
def export_csv (recs : List AttendanceRecord) : List (List String) :=
  csvHeader :: recs.map (fun r => [r.name, r.time, r.date])

/-- Spec-side predicate for claim C1: the raw row has a blank (null/empty)
field in one of the three columns. -/
def hasBlankField (r : List String) : Bool :=
  (r.getD 0 "" == "") || (r.getD 1 "" == "") || (r.getD 2 "" == "")

/-- Spec-side map for claim C1: the record made of the three
whitespace-trimmed fields of a raw row. -/
def trimRow (r : List String) : AttendanceRecord :=
  ⟨pyStrip (r.getD 0 ""), pyStrip (r.getD 1 ""), pyStrip (r.getD 2 "")⟩

/-- A decoded live event: the JSON key/value payload restricted to the keys
the program reads (`name`, `time`, `date`, `received_at`), each possibly
absent. -/
structure LiveEvent where
  name : Option String
  time : Option String
  date : Option String
  received_at : Option String
deriving DecidableEq, Repr

/-- Capacity of the live-message deque: `deque(maxlen=50)` (source line 31). -/
def BUFFER_CAP : Nat := 50

/-- Model of `st.session_state.mqtt_messages.appendleft(data)` on a
`deque(maxlen=50)`:
the new event goes to the front and, past capacity, the oldest (rightmost)
entry is evicted. -/
def pushEvent (buf : List LiveEvent) (e : LiveEvent) : List LiveEvent :=
  (e :: buf).take BUFFER_CAP

/-- Iterating the deque (source line 254) yields the buffered events
front-to-back, i.e. newest first. -/
def snapshot (buf : List LiveEvent) : List LiveEvent := buf

/-- Pushing a list of events in order into a buffer. -/
def pushAll (buf : List LiveEvent) (evs : List LiveEvent) : List LiveEvent :=
  evs.foldl pushEvent buf

/-- The MQTT topic `attendance/student` (source line 23). -/
def MQTT_TOPIC : String := "attendance/student"

/-- The `st.session_state` fields the MQTT pipeline mutates (source lines
27-37): connected flag, live-message deque, last-update stamp, and the
stored client reference (`none` = Python `None`; the client object itself
is external, only its presence matters). -/
structure SessionState where
  mqtt_connected : Bool
  mqtt_messages : List LiveEvent
  last_update : String
  mqtt_client : Option Unit
deriving DecidableEq, Repr

/-- The initial session state (source lines 27-37): disconnected, empty
deque, last update stamped with the current time, no client. -/
def initState (now : String) : SessionState :=
  { mqtt_connected := false, mqtt_messages := [], last_update := now,
    mqtt_client := none }

/-- Receipt stamping, `data['received_at'] = datetime.now()...`, when the key
is absent
(source lines 59-60). -/
def stampReceived (e : LiveEvent) (now : String) : LiveEvent :=
  if e.received_at = none then { e with received_at := some now } else e

/-- Model of `on_message` (source lines 53-69).  `decoded` is the outcome of
`msg.payload.decode()` + `json.loads(payload)`: `none` when either raises.
On failure the handler only logs, leaving the state untouched; on success
it stamps `received_at` if absent, appends left into the deque, and
refreshes `last_update`. -/
def on_message (st : SessionState) (decoded : Option LiveEvent) (now : String) :
    SessionState :=
  match decoded with
  | none => st
  | some data =>
      let data := stampReceived data now
      { st with mqtt_messages := pushEvent st.mqtt_messages data,
                last_update := now }

/-- Externally visible calls the callbacks make on the client object. -/
inductive ClientAction where
  | subscribe (topic : String)
deriving DecidableEq, Repr

/-- Model of `on_connect` (source lines 40-47): on `rc == 0` set the connected flag
and subscribe to the fixed topic; otherwise clear the flag. -/
def on_connect (st : SessionState) (rc : Nat) : SessionState × List ClientAction :=
  if rc = 0 then
    ({ st with mqtt_connected := true }, [ClientAction.subscribe MQTT_TOPIC])
  else
    ({ st with mqtt_connected := false }, [])

/-- Model of `on_disconnect` (source lines 49-51): clear the connected flag. -/
def on_disconnect (st : SessionState) : SessionState :=
  { st with mqtt_connected := false }

/-- A broker notification delivered to the connection callbacks: a CONNACK
with its reason code, or a disconnect. -/
inductive ConnEvent where
  | connack (rc : Nat)
  | disconnect
deriving DecidableEq, Repr

/-- Dispatching one broker notification to the matching callback. -/
def applyConnEvent (st : SessionState) (ev : ConnEvent) : SessionState :=
  match ev with
  | ConnEvent.connack rc => (on_connect st rc).1
  | ConnEvent.disconnect => on_disconnect st

/-- The connection state reached from the initial state after a trace of
broker notifications. -/
def runConn (now : String) (evs : List ConnEvent) : SessionState :=
  evs.foldl applyConnEvent (initState now)

/-- Externally visible effects of one `setup_mqtt` call. -/
inductive SetupAction where
  | connectAttempt
  | clientStored
  | errorShown
deriving DecidableEq, Repr

/-- Model of `setup_mqtt` (source lines 72-88).  `connectOk` is whether
`client.connect(...)` returns or raises (the broker is external).  With a
client already stored the body is skipped entirely; otherwise a client is
built and connected: on success it is stored in the session state, on
exception the error is shown and the connected flag cleared, the client
reference staying `None`. -/
def setup_mqtt (st : SessionState) (connectOk : Bool) :
    SessionState × List SetupAction :=
  match st.mqtt_client with
  | some _ => (st, [])
  | none =>
      if connectOk then
        ({ st with mqtt_client := some () },
         [SetupAction.connectAttempt, SetupAction.clientStored])
      else
        ({ st with mqtt_connected := false },
         [SetupAction.connectAttempt, SetupAction.errorShown])

/-- The session state after a sequence of `setup_mqtt` calls (one per
render cycle, source line 119) with the given connection outcomes. -/
def runSetups (st : SessionState) (bs : List Bool) : SessionState :=
  bs.foldl (fun s ok => (setup_mqtt s ok).1) st

/-- Python `re` metacharacters.  `str.contains(pat, case=False)` treats the
search text as a regular expression (pandas default `regex=True`). -/
def isMeta (c : Char) : Bool :=
  c == '.' || c == '^' || c == '$' || c == '*' || c == '+' || c == '?' ||
  c == '\x7b' || c == '\x7d' || c == '[' || c == ']' || c == '\\' ||
  c == '|' || c == '(' || c == ')'

/-- A search text free of regex metacharacters. -/
def noMeta (s : String) : Bool := s.data.all (fun c => !(isMeta c))

/-- Case-insensitive regex match of a pattern against the start of a text,
for the fragment in which the only metacharacter is `.` (which matches any
character but a newline); other characters match literally, ignoring case
(`case=False` sets `re.IGNORECASE`).  Patterns using further
metacharacters are outside this model, and every theorem about searches
stays inside the fragment. -/
def reMatchHere : List Char → List Char → Bool
  | [], _ => true
  | _ :: _, [] => false
  | c :: p, x :: t =>
      (if c = '.' then x ≠ '\n' else c.toLower = x.toLower) && reMatchHere p t

/-- Model of `re.search` within the same fragment: the pattern matches at some
position of the text. -/
def reSearch (p : List Char) : List Char → Bool
  | [] => reMatchHere p []
  | x :: t' => reMatchHere p (x :: t') || reSearch p t'

/-- Model of `filtered_df['Name'].str.contains(search_name, case=False)` on one
name, within the dot-only regex fragment. -/
def nameContains (search_name : String) (name : String) : Bool :=
  reSearch search_name.data name.data

/-- The history filters of the full-history tab (source lines 213-220):
an empty search box is falsy and skips the name filter; a selected date of
`none` is the `"Semua"` (all) sentinel and skips the date filter. -/
def applyFilters (df : List AttendanceRecord) (search_name : String)
    (selected_date : Option String) : List AttendanceRecord :=
  let f1 := if search_name = "" then df
            else df.filter (fun r => nameContains search_name r.name)
  match selected_date with
  | none => f1
  | some d => f1.filter (fun r => r.date == d)

/-- Spec-side (claim C3): literal match of a pattern against the start of
a text, ignoring case. -/
def litHere : List Char → List Char → Bool
  | [], _ => true
  | _ :: _, [] => false
  | c :: p, x :: t => c.toLower = x.toLower && litHere p t

/-- Spec-side (claim C3): `sub` occurs in `hay` as a case-insensitive
substring. -/
def containsCI (hay sub : String) : Bool :=
  go sub.data hay.data
where
  go (p : List Char) : List Char → Bool
    | [] => litHere p []
    | x :: t' => litHere p (x :: t') || go p t'

/-- One step of `Series.value_counts` aggregation: bump the tally of a
name, first encounter appending it at the end. -/
def bump (acc : List (String × Nat)) (n : String) : List (String × Nat) :=
  match acc with
  | [] => [(n, 1)]
  | (m, k) :: rest => if m = n then (m, k + 1) :: rest else (m, k) :: bump rest n

/-- The per-name tallies of `df['Name'].value_counts()`, keyed in order of
first encounter (pandas hashtable counting preserves first-appearance
order for object dtype). -/
def countsInOrder (names : List String) : List (String × Nat) :=
  names.foldl bump []

/-- The tally of one name in an aggregate (0 when absent). -/
def getCount : List (String × Nat) → String → Nat
  | [], _ => 0
  | (m, k) :: rest, n => if m = n then k else getCount rest n

/-- Stable insertion, descending by count: the new entry goes before the
first entry with a count not above its own, so earlier entries win ties. -/
def insertByCount (x : String × Nat) : List (String × Nat) → List (String × Nat)
  | [] => [x]
  | y :: ys => if x.2 < y.2 then y :: insertByCount x ys else x :: y :: ys

/-- The descending, stable sort `value_counts` applies to the tallies. -/
def sortByCountDesc : List (String × Nat) → List (String × Nat)
  | [] => []
  | x :: xs => insertByCount x (sortByCountDesc xs)

/-- Model of `df['Name'].value_counts().head(5)` (source line 316): tallies sorted
by count descending, ties in first-encounter order, first five kept. -/
def top_students (df : List AttendanceRecord) : List (String × Nat) :=
  (sortByCountDesc (countsInOrder (df.map AttendanceRecord.name))).take 5

theorem take_append_take (l t : List LiveEvent) (n : Nat) :
    (l ++ t.take n).take n = (l ++ t).take n := by
  rw [List.take_append_eq_append_take, List.take_append_eq_append_take,
    List.take_take]
  congr 1
  exact congrArg t.take (Nat.min_eq_left (Nat.sub_le n l.length))

theorem pushAll_reverse_take (evs : List LiveEvent) :
    ∀ buf : List LiveEvent, buf.length ≤ BUFFER_CAP →
      pushAll buf evs = (evs.reverse ++ buf).take BUFFER_CAP := by
  induction evs with
  | nil => intro buf h; simpa [pushAll] using (List.take_of_length_le h).symm
  | cons e evs ih =>
      intro buf h
      have hstep : pushAll buf (e :: evs) = pushAll (pushEvent buf e) evs := rfl
      have hlen : (pushEvent buf e).length ≤ BUFFER_CAP := by
        simp [pushEvent, List.length_take]
      rw [hstep, ih (pushEvent buf e) hlen, pushEvent, take_append_take,
        List.reverse_cons, List.append_assoc]
      rfl

/-- C2: starting from the empty deque, any sequence of pushed events
leaves the buffer holding exactly the (at most 50) most recently pushed
events, oldest evicted first, and the snapshot reads newest-first: after
pushing A, B, C the snapshot is [C, B, A]. -/
theorem C2_buffer_bounded_newest_first (evs : List LiveEvent) (A B C : LiveEvent) :
    snapshot (pushAll [] evs) = evs.reverse.take BUFFER_CAP
    ∧ (pushAll [] evs).length ≤ BUFFER_CAP
    ∧ snapshot (pushAll [] [A, B, C]) = [C, B, A] := by
  have hgen : ∀ l : List LiveEvent, pushAll [] l = l.reverse.take BUFFER_CAP := by
    intro l
    simpa using pushAll_reverse_take l [] (by simp)
  refine ⟨hgen evs, ?_, ?_⟩
  · rw [hgen evs]
    simp [List.length_take]
  · rw [snapshot, hgen [A, B, C]]
    simp [BUFFER_CAP]

/-- C6: a message whose payload fails to decode leaves the session state
(in particular the buffer) exactly as it was, without raising, and a
subsequent validly decoded message is still pushed into the buffer. -/
theorem C6_decode_failure_atomic (st : SessionState) (now now2 : String)
    (e : LiveEvent) :
    on_message st none now = st
    ∧ (on_message (on_message st none now) (some e) now2).mqtt_messages
        = pushEvent st.mqtt_messages (stampReceived e now2) := by
  exact ⟨rfl, rfl⟩

/-- C7: loading with no `Attendance.csv` present creates a file holding
exactly the header row Name, Time, Date and returns the empty record
sequence (total, hence no error). -/
theorem C7_missing_file_created :
    load_attendance_csv none = ([["Name", "Time", "Date"]], []) := rfl

/-- C8: the connection flag starts false, a trace of broker notifications
ends connected exactly when its last notification is a CONNACK with
`rc = 0` (so Connected is only entered from a successful connect callback
and any disconnect or failed handshake reverts it), and the successful
handshake also subscribes to the fixed topic. -/
theorem C8_connection_lifecycle (now : String) (evs : List ConnEvent)
    (ev : ConnEvent) (st : SessionState) (rc : Nat) :
    (initState now).mqtt_connected = false
    ∧ ((runConn now (evs ++ [ev])).mqtt_connected = true ↔ ev = ConnEvent.connack 0)
    ∧ ((on_connect st rc).1.mqtt_connected = true ↔ rc = 0)
    ∧ (rc = 0 → (on_connect st rc).2 = [ClientAction.subscribe MQTT_TOPIC])
    ∧ (on_disconnect st).mqtt_connected = false := by
  refine ⟨rfl, ?_, ?_, ?_, rfl⟩
  · rw [runConn, List.foldl_append]
    cases ev with
    | connack rc' => by_cases h : rc' = 0 <;> simp [applyConnEvent, on_connect, h]
    | disconnect => simp [applyConnEvent, on_disconnect]
  · by_cases h : rc = 0 <;> simp [on_connect, h]
  · intro h
    simp [on_connect, h]

theorem C8_connection_lifecycle_witness :
    (0 = 0)
    ∧ (on_connect (initState "t") 0).2 = [ClientAction.subscribe MQTT_TOPIC] :=
  ⟨rfl,
    (C8_connection_lifecycle "t" [] ConnEvent.disconnect (initState "t") 0).2.2.2.1 rfl⟩

/-- C9: calling `setup_mqtt` when a client is already stored changes no
state and performs no action, over any further sequence of calls, so the
stored client is assigned at most once per process lifetime. -/
theorem C9_setup_idempotent (st : SessionState) (b : Bool) (bs : List Bool)
    (h : st.mqtt_client.isSome = true) :
    setup_mqtt st b = (st, []) ∧ runSetups st bs = st := by
  obtain ⟨u, hu⟩ := Option.isSome_iff_exists.mp h
  have h1 : ∀ b' : Bool, setup_mqtt st b' = (st, []) := by
    intro b'
    simp [setup_mqtt, hu]
  refine ⟨h1 b, ?_⟩
  induction bs with
  | nil => rfl
  | cons b' bs ih =>
      have hs : (setup_mqtt st b').1 = st := by rw [h1 b']
      calc runSetups st (b' :: bs) = runSetups ((setup_mqtt st b').1) bs := rfl
        _ = runSetups st bs := by rw [hs]
        _ = st := ih

/-- A session state with a stored client, for instantiating C9. -/
def stWithClient : SessionState :=
  { mqtt_connected := true, mqtt_messages := [], last_update := "",
    mqtt_client := some () }

theorem C9_setup_idempotent_witness :
    (stWithClient.mqtt_client.isSome = true)
    ∧ setup_mqtt stWithClient true = (stWithClient, []) :=
  ⟨rfl, (C9_setup_idempotent stWithClient true [] rfl).1⟩

/-- C10: when the stored client is `None` and the connect call raises, the
client stays unset and the connected flag is cleared, so the next
`setup_mqtt` call attempts the connection again; a successful call stores
the client, after which `setup_mqtt` does nothing (no reconnect attempt). -/
theorem C10_failed_setup_retries (st : SessionState) (b : Bool)
    (h : st.mqtt_client = none) :
    (setup_mqtt st false).1.mqtt_client = none
    ∧ (setup_mqtt st false).1.mqtt_connected = false
    ∧ SetupAction.connectAttempt ∈ (setup_mqtt ((setup_mqtt st false).1) b).2
    ∧ (setup_mqtt st true).1.mqtt_client = some ()
    ∧ (∀ st' : SessionState, ∀ b2 : Bool, st'.mqtt_client.isSome = true →
        setup_mqtt st' b2 = (st', [])) := by
  have hfail : (setup_mqtt st false).1 = { st with mqtt_connected := false } := by
    simp [setup_mqtt, h]
  refine ⟨?_, ?_, ?_, ?_, ?_⟩
  · rw [hfail]
    exact h
  · rw [hfail]
  · rw [hfail]
    cases b <;> simp [setup_mqtt, h]
  · simp [setup_mqtt, h]
  · intro st' b2 h2
    obtain ⟨u, hu⟩ := Option.isSome_iff_exists.mp h2
    simp [setup_mqtt, hu]

theorem C10_failed_setup_retries_witness :
    ((initState "t").mqtt_client = none)
    ∧ (setup_mqtt (initState "t") false).1.mqtt_client = none
    ∧ SetupAction.connectAttempt
        ∈ (setup_mqtt ((setup_mqtt (initState "t") false).1) true).2 :=
  ⟨rfl, (C10_failed_setup_retries (initState "t") true rfl).1,
    (C10_failed_setup_retries (initState "t") true rfl).2.2.1⟩

theorem loadRows_filter (l : List (List String)) :
    (dropnaRows (l.map readRow)).map
        (fun t => (⟨pyStrip t.1, pyStrip t.2.1, pyStrip t.2.2⟩ : AttendanceRecord))
      = (l.filter (fun r => !(hasBlankField r))).map trimRow := by
  induction l with
  | nil => rfl
  | cons r l ih =>
      by_cases h0 : r.getD 0 "" = "" <;> by_cases h1 : r.getD 1 "" = "" <;>
        by_cases h2 : r.getD 2 "" = "" <;>
        simp only [List.map_cons, List.filter_cons, readRow, parseField,
          hasBlankField, h0, h1, h2, if_true, if_false, if_neg, if_pos,
          beq_self_eq_true, Bool.not_true, Bool.not_false, Bool.true_or,
          Bool.or_true, Bool.false_or, Bool.or_false, dropnaRows, ite_true,
          ite_false, trimRow, ih]
      all_goals try rfl
      simp only [List.getD, List.get?_eq_getElem?] at h0 h1 h2
      simp [h0, h1, h2, trimRow]

/-- C1: loading an existing file returns exactly the data rows with no
blank (null/empty) field among the three columns, in order, each record
holding the whitespace-stripped field values. -/
theorem C1_load_drops_blank_trims (rows : List (List String)) :
    (load_attendance_csv (some rows)).2
      = ((rows.drop 1).filter (fun r => !(hasBlankField r))).map trimRow :=
  loadRows_filter (rows.drop 1)

theorem load_some_snd (rows : List (List String)) :
    (load_attendance_csv (some rows)).2
      = (dropnaRows ((rows.drop 1).map readRow)).map
          (fun t => (⟨pyStrip t.1, pyStrip t.2.1, pyStrip t.2.2⟩ : AttendanceRecord)) :=
  rfl

/-- C5 counterexample: the loader can return a record whose name is empty
(a whitespace-only CSV field survives `dropna` and strips to the empty
string); exporting that view writes an empty field, which re-loads as NaN
and is dropped, so the round trip loses the record. -/
theorem C5_roundtrip_counterexample :
    (load_attendance_csv (some (export_csv
        ((load_attendance_csv (some [["Name", "Time", "Date"], [" ", "x", "y"]])).2)))).2
      ≠ (load_attendance_csv (some [["Name", "Time", "Date"], [" ", "x", "y"]])).2 := by
  decide

/-- C5 (amended): for a filtered view whose records have all three fields
stripped and nonempty, exporting and re-loading through the same load
routine reproduces exactly the same record sequence. -/
theorem C5_roundtrip_nonblank (recs : List AttendanceRecord)
    (h : ∀ r ∈ recs, r.name ≠ "" ∧ pyStrip r.name = r.name ∧
        r.time ≠ "" ∧ pyStrip r.time = r.time ∧
        r.date ≠ "" ∧ pyStrip r.date = r.date) :
    (load_attendance_csv (some (export_csv recs))).2 = recs := by
  induction recs with
  | nil => rfl
  | cons r recs ih =>
      obtain ⟨⟨hn, hsn, ht, hst, hd, hsd⟩, hrest⟩ := List.forall_mem_cons.mp h
      have hr : readRow [r.name, r.time, r.date]
          = (some r.name, some r.time, some r.date) := by
        simp [readRow, parseField, hn, ht, hd]
      have htail := ih hrest
      rw [load_some_snd] at htail ⊢
      simp only [export_csv, List.drop_succ_cons, List.drop_zero] at htail ⊢
      simp only [List.map_cons, hr, dropnaRows, hsn, hst, hsd]
      rw [htail]

theorem C5_roundtrip_nonblank_witness :
    (∀ r ∈ [(⟨"Ali", "09:00", "01-January-2026"⟩ : AttendanceRecord)],
        r.name ≠ "" ∧ pyStrip r.name = r.name ∧
        r.time ≠ "" ∧ pyStrip r.time = r.time ∧
        r.date ≠ "" ∧ pyStrip r.date = r.date)
    ∧ (load_attendance_csv (some (export_csv
          [(⟨"Ali", "09:00", "01-January-2026"⟩ : AttendanceRecord)]))).2
        = [(⟨"Ali", "09:00", "01-January-2026"⟩ : AttendanceRecord)] :=
  ⟨by decide, C5_roundtrip_nonblank _ (by decide)⟩

theorem reMatchHere_eq_litHere (p : List Char)
    (hp : p.all (fun c => !(isMeta c)) = true) :
    ∀ t, reMatchHere p t = litHere p t := by
  induction p with
  | nil => intro t; cases t <;> rfl
  | cons c p ih =>
      have hc : ¬(c = '.') := by
        intro hdot
        have hm := (List.all_eq_true.mp hp) c (by simp)
        rw [hdot] at hm
        simp [isMeta] at hm
      have hp' : p.all (fun c => !(isMeta c)) = true := by
        have hm := List.all_eq_true.mp hp
        exact List.all_eq_true.mpr (fun x hx => hm x (by simp [hx]))
      intro t
      cases t with
      | nil => rfl
      | cons x t' => simp [reMatchHere, litHere, if_neg hc, ih hp' t']

theorem reSearch_eq_go (p : List Char)
    (hp : p.all (fun c => !(isMeta c)) = true) :
    ∀ t, reSearch p t = containsCI.go p t := by
  intro t
  induction t with
  | nil => simp [reSearch, containsCI.go, reMatchHere_eq_litHere p hp]
  | cons x t' ih =>
      simp [reSearch, containsCI.go, reMatchHere_eq_litHere p hp, ih]

theorem nameContains_eq_containsCI (s name : String) (hs : noMeta s = true) :
    nameContains s name = containsCI name s :=
  reSearch_eq_go s.data hs name.data

theorem containsCI_empty (hay : String) : containsCI hay "" = true := by
  have hgo : ∀ t : List Char, containsCI.go [] t = true := by
    intro t
    cases t <;> simp [containsCI.go, litHere]
  exact hgo hay.data

/-- C3 counterexample: the code filters names with `str.contains(...,
case=False)`, whose default is regex matching, so the search text `.`
retains a record whose name has no literal dot in it — the name filter is
not case-insensitive substring containment for every search string. -/
theorem C3_name_filter_counterexample :
    applyFilters [⟨"AB", "x", "y"⟩] "." none
      ≠ List.filter (fun r => containsCI r.name ".") [⟨"AB", "x", "y"⟩] := by
  decide

/-- C3 (amended): for search strings free of regex metacharacters, the
name filter retains exactly the records whose name contains the search
string as a case-insensitive substring; the date filter retains exactly
the records with that exact date string; together they retain exactly the
records satisfying both (AND semantics). -/
theorem C3_filters_no_meta (df : List AttendanceRecord) (s : String) (d : String)
    (hs : noMeta s = true) :
    applyFilters df s none = df.filter (fun r => containsCI r.name s)
    ∧ applyFilters df "" (some d) = df.filter (fun r => r.date == d)
    ∧ applyFilters df s (some d)
        = df.filter (fun r => containsCI r.name s && r.date == d) := by
  have hname : ∀ r : AttendanceRecord, nameContains s r.name = containsCI r.name s :=
    fun r => nameContains_eq_containsCI s r.name hs
  refine ⟨?_, ?_, ?_⟩
  · by_cases h : s = ""
    · subst h
      have h1 : applyFilters df "" none = df := by simp [applyFilters]
      rw [h1]
      exact (List.filter_eq_self.mpr (fun a _ => containsCI_empty a.name)).symm
    · have h1 : applyFilters df s none
          = df.filter (fun r => nameContains s r.name) := by
        simp [applyFilters, h]
      rw [h1]
      exact List.filter_congr (fun x _ => hname x)
  · simp [applyFilters]
  · by_cases h : s = ""
    · subst h
      have h1 : applyFilters df "" (some d)
          = df.filter (fun r => r.date == d) := by
        simp [applyFilters]
      rw [h1]
      refine List.filter_congr (fun x _ => ?_)
      rw [containsCI_empty x.name, Bool.true_and]
    · have h1 : applyFilters df s (some d)
          = List.filter (fun r => r.date == d)
              (List.filter (fun r => nameContains s r.name) df) := by
        simp [applyFilters, h]
      rw [h1, List.filter_filter]
      refine List.filter_congr (fun x _ => ?_)
      rw [hname x]
      exact Bool.and_comm _ _

theorem C3_filters_no_meta_witness :
    (noMeta "ali" = true)
    ∧ applyFilters [⟨"Muhammad Ali", "x", "y"⟩, ⟨"Budi", "x", "z"⟩] "ali" none
        = List.filter (fun r => containsCI r.name "ali")
            [⟨"Muhammad Ali", "x", "y"⟩, ⟨"Budi", "x", "z"⟩] :=
  ⟨by decide, (C3_filters_no_meta _ "ali" "y" (by decide)).1⟩

theorem mem_insertByCount {x a : String × Nat} :
    ∀ {l : List (String × Nat)}, a ∈ insertByCount x l ↔ a = x ∨ a ∈ l := by
  intro l
  induction l with
  | nil => simp [insertByCount]
  | cons y ys ih =>
      by_cases hlt : x.2 < y.2 <;> simp [insertByCount, hlt, ih] <;> tauto

theorem pairwise_insertByCount (x : String × Nat) :
    ∀ l : List (String × Nat), l.Pairwise (fun a b => b.2 ≤ a.2) →
      (insertByCount x l).Pairwise (fun a b => b.2 ≤ a.2) := by
  intro l
  induction l with
  | nil => intro _; simp [insertByCount]
  | cons y ys ih =>
      intro h
      rw [List.pairwise_cons] at h
      obtain ⟨hy, hys⟩ := h
      by_cases hlt : x.2 < y.2
      · simp only [insertByCount, if_pos hlt]
        rw [List.pairwise_cons]
        refine ⟨?_, ih hys⟩
        intro a ha
        rcases mem_insertByCount.mp ha with rfl | hmem
        · exact Nat.le_of_lt hlt
        · exact hy a hmem
      · simp only [insertByCount, if_neg hlt]
        rw [List.pairwise_cons]
        refine ⟨?_, List.pairwise_cons.mpr ⟨hy, hys⟩⟩
        intro a ha
        rcases List.mem_cons.mp ha with rfl | hmem
        · exact Nat.le_of_not_lt hlt
        · exact Nat.le_trans (hy a hmem) (Nat.le_of_not_lt hlt)

theorem pairwise_sortByCountDesc (l : List (String × Nat)) :
    (sortByCountDesc l).Pairwise (fun a b => b.2 ≤ a.2) := by
  induction l with
  | nil => simp [sortByCountDesc]
  | cons x xs ih => exact pairwise_insertByCount x _ ih

theorem perm_insertByCount (x : String × Nat) :
    ∀ l, List.Perm (insertByCount x l) (x :: l) := by
  intro l
  induction l with
  | nil => exact List.Perm.refl _
  | cons y ys ih =>
      by_cases hlt : x.2 < y.2
      · simp only [insertByCount, if_pos hlt]
        exact List.Perm.trans (List.Perm.cons y ih) (List.Perm.swap x y ys)
      · simp only [insertByCount, if_neg hlt]
        exact List.Perm.refl _

theorem perm_sortByCountDesc (l : List (String × Nat)) :
    List.Perm (sortByCountDesc l) l := by
  induction l with
  | nil => exact List.Perm.refl _
  | cons x xs ih =>
      exact List.Perm.trans (perm_insertByCount x _) (List.Perm.cons x ih)

theorem filter_insertByCount (x : String × Nat) (k : Nat) :
    ∀ l, (insertByCount x l).filter (fun p => p.2 == k)
      = if x.2 = k then x :: l.filter (fun p => p.2 == k)
        else l.filter (fun p => p.2 == k) := by
  intro l
  induction l with
  | nil =>
      by_cases hxk : x.2 = k <;>
        · have hb : (x.2 == k) = decide (x.2 = k) := rfl
          simp [insertByCount, List.filter_cons, hxk]
  | cons y ys ih =>
      by_cases hlt : x.2 < y.2
      · simp only [insertByCount, if_pos hlt, List.filter_cons, ih]
        by_cases hxk : x.2 = k
        · have hyk : ¬(y.2 == k) = true := by
            simp only [beq_iff_eq]
            omega
          simp [hxk, hyk]
        · simp [hxk]
      · simp only [insertByCount, if_neg hlt, List.filter_cons]
        by_cases hxk : x.2 = k <;> simp [hxk]

theorem filter_sortByCountDesc (k : Nat) (l : List (String × Nat)) :
    (sortByCountDesc l).filter (fun p => p.2 == k)
      = l.filter (fun p => p.2 == k) := by
  induction l with
  | nil => rfl
  | cons x xs ih =>
      simp only [sortByCountDesc, filter_insertByCount, ih, List.filter_cons]
      by_cases hxk : x.2 = k <;> simp [hxk]

theorem getCount_bump (acc : List (String × Nat)) (m n : String) :
    getCount (bump acc m) n = getCount acc n + (if m = n then 1 else 0) := by
  induction acc with
  | nil =>
      by_cases h : m = n <;> simp [bump, getCount, h]
  | cons p rest ih =>
      obtain ⟨a, j⟩ := p
      by_cases ham : a = m
      · subst ham
        by_cases han : a = n
        · subst han
          simp [bump, getCount]
        · simp [bump, getCount, han]
      · by_cases han : a = n
        · subst han
          have hmn : ¬(m = a) := fun h => ham h.symm
          simp [bump, getCount, ham, hmn]
        · simp [bump, getCount, ham, han, ih]

theorem getCount_foldl (names : List String) (n : String) :
    ∀ acc, getCount (names.foldl bump acc) n = getCount acc n + names.count n := by
  induction names with
  | nil => intro acc; simp
  | cons m names ih =>
      intro acc
      rw [List.foldl_cons, ih (bump acc m), getCount_bump]
      rw [List.count_cons]
      by_cases h : m = n <;> simp [h] <;> omega

theorem getCount_countsInOrder (names : List String) (n : String) :
    getCount (countsInOrder names) n = names.count n := by
  have h := getCount_foldl names n []
  simpa [countsInOrder, getCount] using h

theorem keys_bump (acc : List (String × Nat)) (m : String) :
    (bump acc m).map Prod.fst
      = if m ∈ acc.map Prod.fst then acc.map Prod.fst
        else acc.map Prod.fst ++ [m] := by
  induction acc with
  | nil => simp [bump]
  | cons p rest ih =>
      obtain ⟨a, j⟩ := p
      by_cases ham : a = m
      · subst ham
        simp [bump]
      · have hma : ¬(m = a) := fun h => ham h.symm
        simp only [bump, if_neg ham, List.map_cons, ih]
        by_cases hm : m ∈ rest.map Prod.fst
        · rw [if_pos hm, if_pos (by simp [List.mem_cons, hm])]
        · rw [if_neg hm, if_neg (by simp [List.mem_cons, hma, hm])]
          simp

theorem nodup_keys_bump (acc : List (String × Nat)) (m : String)
    (h : (acc.map Prod.fst).Nodup) : ((bump acc m).map Prod.fst).Nodup := by
  rw [keys_bump]
  by_cases hm : m ∈ acc.map Prod.fst
  · rw [if_pos hm]
    exact h
  · rw [if_neg hm]
    refine List.Nodup.append h (List.nodup_singleton m) ?_
    intro a ha hb
    rw [List.mem_singleton] at hb
    subst hb
    exact hm ha

theorem nodup_keys_countsInOrder (names : List String) :
    ((countsInOrder names).map Prod.fst).Nodup := by
  have hgen : ∀ acc, (List.map Prod.fst acc).Nodup →
      ((names.foldl bump acc).map Prod.fst).Nodup := by
    induction names with
    | nil => intro acc h; exact h
    | cons m names ih =>
        intro acc h
        exact ih (bump acc m) (nodup_keys_bump acc m h)
  exact hgen [] (by simp)

theorem getCount_of_mem (acc : List (String × Nat)) (p : String × Nat)
    (hnd : (acc.map Prod.fst).Nodup) (hp : p ∈ acc) : getCount acc p.1 = p.2 := by
  induction acc with
  | nil => simp at hp
  | cons q rest ih =>
      obtain ⟨a, j⟩ := q
      rw [List.map_cons, List.nodup_cons] at hnd
      obtain ⟨hna, hnd'⟩ := hnd
      rcases List.mem_cons.mp hp with rfl | hmem
      · simp [getCount]
      · have hne : ¬(a = p.1) := by
          intro h
          subst h
          exact hna (List.mem_map.mpr ⟨p, hmem, rfl⟩)
        simp only [getCount, if_neg hne]
        exact ih hnd' hmem

theorem counts_entries_correct (names : List String) :
    ∀ p ∈ countsInOrder names, p.2 = names.count p.1 := by
  intro p hp
  have h1 :=
    getCount_of_mem (countsInOrder names) p (nodup_keys_countsInOrder names) hp
  exact h1.symm.trans (getCount_countsInOrder names p.1)

theorem mem_keys_bump_self (acc : List (String × Nat)) (m : String) :
    m ∈ (bump acc m).map Prod.fst := by
  rw [keys_bump]
  by_cases hm : m ∈ acc.map Prod.fst
  · rw [if_pos hm]
    exact hm
  · rw [if_neg hm]
    simp

theorem mem_keys_bump_mono (acc : List (String × Nat)) (m a : String)
    (h : a ∈ acc.map Prod.fst) : a ∈ (bump acc m).map Prod.fst := by
  rw [keys_bump]
  by_cases hm : m ∈ acc.map Prod.fst
  · rw [if_pos hm]
    exact h
  · rw [if_neg hm]
    exact List.mem_append_left _ h

theorem mem_keys_foldl_mono (names : List String) :
    ∀ acc a, a ∈ acc.map Prod.fst → a ∈ ((names.foldl bump acc).map Prod.fst) := by
  induction names with
  | nil => intro acc a h; exact h
  | cons m names ih =>
      intro acc a h
      exact ih (bump acc m) a (mem_keys_bump_mono acc m a h)

theorem mem_keys_countsInOrder (names : List String) :
    ∀ n ∈ names, n ∈ (countsInOrder names).map Prod.fst := by
  have hgen : ∀ acc, ∀ n ∈ names, n ∈ ((names.foldl bump acc).map Prod.fst) := by
    induction names with
    | nil => intro acc n h; simp at h
    | cons m names ih =>
        intro acc n hn
        rcases List.mem_cons.mp hn with rfl | hmem
        · exact mem_keys_foldl_mono names (bump acc n) n (mem_keys_bump_self acc n)
        · exact ih (bump acc m) n hmem
  exact hgen []

/-- Records with name counts A:3 (A encountered first), B:3, C:1, the
worked example of the ranking claim. -/
def dfTies : List AttendanceRecord :=
  [⟨"A", "t", "d"⟩, ⟨"B", "t", "d"⟩, ⟨"A", "t", "d"⟩, ⟨"B", "t", "d"⟩,
   ⟨"A", "t", "d"⟩, ⟨"B", "t", "d"⟩, ⟨"C", "t", "d"⟩]

/-- Six records with six distinct names, so that the top-5 ranking drops
one entry. -/
def dfSix : List AttendanceRecord :=
  [⟨"N1", "t", "d"⟩, ⟨"N2", "t", "d"⟩, ⟨"N3", "t", "d"⟩,
   ⟨"N4", "t", "d"⟩, ⟨"N5", "t", "d"⟩, ⟨"N6", "t", "d"⟩]

/-- C4: the top-5 ranking takes the first five entries of the per-name
tallies sorted by count descending; the sorted tallies are a permutation
of the first-encounter aggregate, non-increasing in count, with entries of
any one count kept in aggregate (first-encounter) order; each tally is the
exact number of records with that name and every name is tallied; every
listed entry's count is at least that of every entry left out; and on
counts A:3, B:3, C:1 (A first encountered) the ranking is exactly
[(A,3), (B,3), (C,1)]. -/
theorem C4_top5_ranking (df : List AttendanceRecord) :
    top_students df
        = (sortByCountDesc (countsInOrder (df.map AttendanceRecord.name))).take 5
    ∧ List.Pairwise (fun a b => b.2 ≤ a.2)
        (sortByCountDesc (countsInOrder (df.map AttendanceRecord.name)))
    ∧ List.Perm (sortByCountDesc (countsInOrder (df.map AttendanceRecord.name)))
        (countsInOrder (df.map AttendanceRecord.name))
    ∧ (∀ k : Nat,
        (sortByCountDesc (countsInOrder (df.map AttendanceRecord.name))).filter
            (fun p => p.2 == k)
          = (countsInOrder (df.map AttendanceRecord.name)).filter
              (fun p => p.2 == k))
    ∧ (∀ p ∈ countsInOrder (df.map AttendanceRecord.name),
        p.2 = (df.map AttendanceRecord.name).count p.1)
    ∧ (∀ n ∈ df.map AttendanceRecord.name,
        n ∈ (countsInOrder (df.map AttendanceRecord.name)).map Prod.fst)
    ∧ (∀ a ∈ top_students df,
        ∀ b ∈ (sortByCountDesc (countsInOrder (df.map AttendanceRecord.name))).drop 5,
          b.2 ≤ a.2)
    ∧ top_students dfTies = [("A", 3), ("B", 3), ("C", 1)] := by
  refine ⟨rfl, pairwise_sortByCountDesc _, perm_sortByCountDesc _,
    fun k => filter_sortByCountDesc k _,
    counts_entries_correct _, mem_keys_countsInOrder _, ?_, by decide⟩
  intro a ha b hb
  have hpw := pairwise_sortByCountDesc (countsInOrder (df.map AttendanceRecord.name))
  rw [← List.take_append_drop 5
    (sortByCountDesc (countsInOrder (df.map AttendanceRecord.name)))] at hpw
  exact (List.pairwise_append.mp hpw).2.2 a ha b hb

theorem C4_top5_ranking_witness :
    (("A", 3) ∈ countsInOrder (dfTies.map AttendanceRecord.name))
    ∧ ((3 : Nat) = (dfTies.map AttendanceRecord.name).count "A")
    ∧ (("N1", 1) ∈ top_students dfSix)
    ∧ (("N6", 1)
        ∈ (sortByCountDesc (countsInOrder (dfSix.map AttendanceRecord.name))).drop 5)
    ∧ ((1 : Nat) ≤ 1) :=
  ⟨by decide, (C4_top5_ranking dfTies).2.2.2.2.1 ("A", 3) (by decide),
   by decide, by decide,
   (C4_top5_ranking dfSix).2.2.2.2.2.2.1 ("N1", 1) (by decide) ("N6", 1) (by decide)⟩
